import Mathlib

/-!
Verification of the sysctl-style configuration parser (crates `parser` and `node`).

The development shallowly embeds the Rust source:

* `src/parser/src/char_reader/mod.rs` — the byte-to-codepoint reader with its
  peek / peek-back / consume lookahead protocol (`CharReader`);
* `src/parser/src/lexer/mod.rs` — the tokenizer (`Lexer`);
* `src/parser/src/lib.rs` — the recursive-descent statement parser (`Parser`);
* `src/node/src/lib.rs` — `Value`, `SchemaType`, `Path`, `Statement::evaluate`.

Machine integers are modelled by `Nat` (bytes are `Nat`s below 256, codepoints
`Nat`s); Rust's mutable state is threaded explicitly: every operation returns
its result together with the successor state, also on the error path, because
the Rust methods take `&mut self` and their partial mutations survive an early
return.  Rust `panic!`/`unreachable!` aborts are modelled as distinguished
outcomes, never as ordinary errors.  Loops of the Rust source that consume
input are modelled with an explicit fuel parameter; fuel exhaustion surfaces
as an error that no theorem below identifies with a genuine parse result.
-/

namespace SC

/-! ## Codepoint reader (`src/parser/src/char_reader/mod.rs`) -/

/-- Decode-level failures of `CharReader::next`/`read_rest`, before source
positions are attached: end of the byte stream, or a byte that fits no UTF-8
pattern / is not a continuation byte.  In the Rust source these are built with
`self.line` / `self.position` baked in; since decoding never changes those
fields, the position-carrying variants are attached in `crNext` below. -/
inductive DecErr where
  | eof : DecErr
  | invalidUTF8 (b : Nat) : DecErr
deriving Repr, DecidableEq

/-- `CharReader::read_rest::<N>`: one `read` call for `n` continuation bytes.
Zero available bytes is EOF; fewer than `n` leaves the zero-initialised tail
of the buffer in place (the Rust code only checks `v == 0`).  Every byte of
the `n`-byte buffer must match `10xxxxxx`, otherwise the first offender is an
`InvalidUTF8` error. -/
def readRest (input : List Nat) (n : Nat) : Except DecErr (List Nat × List Nat) :=
  match input with
  | [] => .error .eof
  | _ :: _ =>
    let taken := input.take n
    let padded := taken ++ List.replicate (n - taken.length) 0
    match padded.find? (fun b => !(b &&& 0xC0 == 0x80)) with
    | some b => .error (.invalidUTF8 b)
    | none => .ok (padded, input.drop n)

/-- The classification-and-assembly core of `CharReader::next`: read the lead
byte, classify by its high bits into a 1/2/3/4-byte sequence, read the
continuation bytes and assemble the codepoint.  Returns the codepoint and the
remaining byte stream. -/
def decodeCp (input : List Nat) : Except DecErr (Nat × List Nat) :=
  match input with
  | [] => .error .eof
  | b :: rest =>
    if b &&& 0xF8 == 0xF0 then
      match readRest rest 3 with
      | .error e => .error e
      | .ok (r, rest') =>
        .ok (((b &&& 0x07) <<< 18) ||| ((r.getD 0 0 &&& 0x3F) <<< 12) |||
             ((r.getD 1 0 &&& 0x3F) <<< 6) ||| (r.getD 2 0 &&& 0x3F), rest')
    else if b &&& 0xF0 == 0xE0 then
      match readRest rest 2 with
      | .error e => .error e
      | .ok (r, rest') =>
        .ok (((b &&& 0x0F) <<< 12) ||| ((r.getD 0 0 &&& 0x3F) <<< 6) |||
             (r.getD 1 0 &&& 0x3F), rest')
    else if b &&& 0xE0 == 0xC0 then
      match readRest rest 1 with
      | .error e => .error e
      | .ok (r, rest') => .ok (((b &&& 0x1F) <<< 6) ||| (r.getD 0 0 &&& 0x3F), rest')
    else if b &&& 0x80 == 0 then
      .ok (b, rest)
    else
      .error (.invalidUTF8 b)

/-- `char::from_u32` succeeds exactly on Unicode scalar values. -/
def isScalar (cp : Nat) : Bool := cp < 0x110000 && !(0xD800 ≤ cp && cp < 0xE000)

/-- The state of a `CharReader<T>`: the remaining byte stream of the wrapped
reader, the `line`/`position` counters, and the lookahead buffer with its
rewind count (`peek_buffer` / `peek_offset`). -/
structure CharReaderSt where
  input : List Nat
  line : Nat
  position : Nat
  peekBuffer : List (Char × Nat × Nat)
  peekOffset : Nat
deriving Repr, DecidableEq

/-- Errors of `char_reader::error::Error`. -/
inductive CError where
  | peekBackError : CError
  | consumeError : CError
  | eofErr (line position : Nat) : CError
  | invalidUTF8 (b line position : Nat) : CError
  | invalidCodepoint (cp line position : Nat) : CError
  | readError (msg : String) : CError
deriving Repr, DecidableEq

/-- A fresh `CharReader::new` over a byte stream. -/
def freshCR (bytes : List Nat) : CharReaderSt :=
  { input := bytes, line := 1, position := 0, peekBuffer := [], peekOffset := 0 }

/-- `CharReader::next`: decode one codepoint from the byte stream, then
increment `position`, validate the scalar value (`char::from_u32`), and on a
newline increment `line` and reset `position` to 0.  The Rust source
increments `position` before the `from_u32` check, so an `InvalidCodepoint`
error carries — and leaves behind — the incremented position. -/
def crNext (st : CharReaderSt) : Except CError (Char × Nat × Nat) × CharReaderSt :=
  match decodeCp st.input with
  | .error .eof => (.error (.eofErr st.line st.position), st)
  | .error (.invalidUTF8 b) => (.error (.invalidUTF8 b st.line st.position), st)
  | .ok (cp, rest) =>
    let p := st.position + 1
    if isScalar cp then
      let c := Char.ofNat cp
      if c = '\n' then
        (.ok (c, st.line, p), { st with input := rest, line := st.line + 1, position := 0 })
      else
        (.ok (c, st.line, p), { st with input := rest, position := p })
    else
      (.error (.invalidCodepoint cp st.line p), { st with input := rest, position := p })

/-- `CharReader::peek`: when rewound peeks are outstanding re-serve from the
buffer (decrementing `peek_offset`), otherwise decode the next codepoint and
append it to the buffer.  The Rust `.expect` on an out-of-range buffer index
is a panic; it is modelled as a `readError` that the invariant
`peek_offset ≤ peek_buffer.len()` keeps unreachable. -/
def crPeek (st : CharReaderSt) : Except CError (Char × Nat × Nat) × CharReaderSt :=
  if st.peekOffset > 0 then
    match st.peekBuffer.get? (st.peekBuffer.length - st.peekOffset) with
    | some v => (.ok v, { st with peekOffset := st.peekOffset - 1 })
    | none => (.error (.readError "peek_buffer index out of range"), st)
  else
    match crNext st with
    | (.ok v, st') => (.ok v, { st' with peekBuffer := st'.peekBuffer ++ [v] })
    | (.error e, st') => (.error e, st')

/-- `CharReader::peek_back`: rewind the peek cursor by one, failing when the
rewind count would exceed the number of buffered items. -/
def crPeekBack (st : CharReaderSt) : Except CError Unit × CharReaderSt :=
  if st.peekBuffer.length < st.peekOffset + 1 then
    (.error .peekBackError, st)
  else
    (.ok (), { st with peekOffset := st.peekOffset + 1 })

/-- `CharReader::consume`: pop `i` buffered codepoints off the front,
concatenating their text; each successful pop saturating-decrements
`peek_offset`.  An empty buffer mid-loop aborts with `ConsumeError`, keeping
the pops already performed (the Rust loop mutates `self` before the `?`). -/
def crConsume (i : Nat) (st : CharReaderSt) : Except CError String × CharReaderSt :=
  match i with
  | 0 => (.ok "", st)
  | i + 1 =>
    match st.peekBuffer with
    | [] => (.error .consumeError, st)
    | v :: rest =>
      match crConsume i { st with peekBuffer := rest, peekOffset := st.peekOffset - 1 } with
      | (.ok s, st') => (.ok (String.mk (v.1 :: s.data)), st')
      | (.error e, st') => (.error e, st')

/-- `CharReader::read`: serve the front of the peek buffer
(saturating-decrementing `peek_offset`) or decode fresh from the stream. -/
def crRead (st : CharReaderSt) : Except CError (Char × Nat × Nat) × CharReaderSt :=
  match st.peekBuffer with
  | [] => crNext st
  | v :: rest => (.ok v, { st with peekBuffer := rest, peekOffset := st.peekOffset - 1 })

/-- The character produced by the `n`-th (0-based) successful `read` from a
state; `none` as soon as a read fails. -/
def nthReadChar (n : Nat) (st : CharReaderSt) : Option Char :=
  match crRead st with
  | (.ok v, st') =>
    match n with
    | 0 => some v.1
    | m + 1 => nthReadChar m st'
  | (.error _, _) => none

theorem decodeCp_shrinks {input rest : List Nat} {cp : Nat}
    (h : decodeCp input = .ok (cp, rest)) : rest.length < input.length := by
  match input with
  | [] => simp [decodeCp] at h
  | b :: tl =>
    unfold decodeCp at h
    have hrr : ∀ n (r : List Nat) (rest' : List Nat),
        readRest tl n = .ok (r, rest') → rest'.length ≤ tl.length := by
      intro n r rest' hr
      unfold readRest at hr
      match tl with
      | [] => simp at hr
      | x :: xs =>
        simp only at hr
        split at hr
        · exact absurd hr (by simp)
        · simp only [Except.ok.injEq, Prod.mk.injEq] at hr
          rw [← hr.2]
          simp [List.length_drop]
    simp only at h
    split at h
    · cases hr : readRest tl 3 with
      | error e => rw [hr] at h; simp at h
      | ok pr =>
        rw [hr] at h
        simp only [Except.ok.injEq, Prod.mk.injEq] at h
        obtain ⟨h1, h2⟩ := h
        subst h2
        have := hrr 3 pr.1 pr.2 (by rw [hr])
        simp only [List.length_cons]
        omega
    · split at h
      · cases hr : readRest tl 2 with
        | error e => rw [hr] at h; simp at h
        | ok pr =>
          rw [hr] at h
          simp only [Except.ok.injEq, Prod.mk.injEq] at h
          obtain ⟨h1, h2⟩ := h
          subst h2
          have := hrr 2 pr.1 pr.2 (by rw [hr])
          simp only [List.length_cons]
          omega
      · split at h
        · cases hr : readRest tl 1 with
          | error e => rw [hr] at h; simp at h
          | ok pr =>
            rw [hr] at h
            simp only [Except.ok.injEq, Prod.mk.injEq] at h
            obtain ⟨h1, h2⟩ := h
            subst h2
            have := hrr 1 pr.1 pr.2 (by rw [hr])
            simp only [List.length_cons]
            omega
        · split at h
          · simp only [Except.ok.injEq, Prod.mk.injEq] at h
            rw [← h.2]
            simp
          · simp at h

/-- The stream of characters obtainable by decoding a byte list until the
first failure — the read-side denotation of a buffer-free reader. -/
def decodeList (input : List Nat) : List Char :=
  match h : decodeCp input with
  | .error _ => []
  | .ok (cp, rest) =>
    if isScalar cp then Char.ofNat cp :: decodeList rest else []
termination_by input.length
decreasing_by exact decodeCp_shrinks h

/-- The sequence of characters future `read`s will return from a state:
buffered codepoints first, then the decoded remainder of the byte stream. -/
def denoteChars (st : CharReaderSt) : List Char :=
  st.peekBuffer.map (·.1) ++ decodeList st.input

theorem decodeList_error {input : List Nat} {e : DecErr}
    (h : decodeCp input = .error e) : decodeList input = [] := by
  conv_lhs => rw [decodeList]
  split
  · rfl
  · rename_i cp rest heq
    rw [h] at heq
    cases heq

theorem decodeList_ok {input rest : List Nat} {cp : Nat}
    (h : decodeCp input = .ok (cp, rest)) :
    decodeList input = if isScalar cp then Char.ofNat cp :: decodeList rest else [] := by
  conv_lhs => rw [decodeList]
  split
  · rename_i e heq
    rw [h] at heq
    cases heq
  · rename_i cp' rest' heq
    rw [h] at heq
    simp only [Except.ok.injEq, Prod.mk.injEq] at heq
    obtain ⟨h1, h2⟩ := heq
    subst h1
    subst h2
    rfl

/-- The peek cursor: how many buffered codepoints have been peeked and not
rewound; the next `peek` observes this index of the future-read sequence. -/
def cursor (st : CharReaderSt) : Nat := st.peekBuffer.length - st.peekOffset

/-- A lookahead call: `CharReader::peek` or `CharReader::peek_back`. -/
inductive LOp where
  | peekOp : LOp
  | peekBackOp : LOp
deriving Repr, DecidableEq

/-- Run a sequence of peek / peek-back calls, recording for every `peek` the
cursor position at the time of the call together with the observed character;
`none` as soon as any call fails. -/
def runOps : List LOp → CharReaderSt → Option (List (Nat × Char) × CharReaderSt)
  | [], st => some ([], st)
  | .peekOp :: ops, st =>
    match crPeek st with
    | (.ok v, st') =>
      match runOps ops st' with
      | some (obs, stf) => some ((cursor st, v.1) :: obs, stf)
      | none => none
    | (.error _, _) => none
  | .peekBackOp :: ops, st =>
    match crPeekBack st with
    | (.ok _, st') => runOps ops st'
    | (.error _, _) => none

/-- Anatomy of a successful `CharReader::next`: the reported line/column are
the pre-state's line and its position incremented, the lookahead buffer is
untouched, and the counters advance by the newline rule. -/
theorem crNext_ok {st : CharReaderSt} {c : Char} {l p : Nat} {st' : CharReaderSt}
    (h : crNext st = (.ok (c, l, p), st')) :
    l = st.line ∧ p = st.position + 1 ∧
    st'.peekBuffer = st.peekBuffer ∧ st'.peekOffset = st.peekOffset ∧
    (if c = '\n' then st'.line = st.line + 1 ∧ st'.position = 0
     else st'.line = st.line ∧ st'.position = st.position + 1) := by
  unfold crNext at h
  split at h
  · simp at h
  · simp at h
  · dsimp only at h
    split at h
    · split at h
      · simp only [Prod.mk.injEq, Except.ok.injEq] at h
        obtain ⟨⟨hc, hl, hp⟩, hst⟩ := h
        subst hc hl hp hst
        simp_all
      · simp only [Prod.mk.injEq, Except.ok.injEq] at h
        obtain ⟨⟨hc, hl, hp⟩, hst⟩ := h
        subst hc hl hp hst
        simp_all
    · simp at h

/-- A failing `CharReader::next` means the decoded character stream of the
remaining bytes is empty. -/
theorem crNext_error_decodeList {st : CharReaderSt} {e : CError} {st' : CharReaderSt}
    (h : crNext st = (.error e, st')) : decodeList st.input = [] := by
  unfold crNext at h
  cases hd : decodeCp st.input with
  | error e' => exact decodeList_error hd
  | ok pr =>
    obtain ⟨cp, rest⟩ := pr
    rw [hd] at h
    dsimp only at h
    rw [decodeList_ok hd]
    by_cases hs : isScalar cp
    · rw [if_pos hs] at h
      split at h <;> simp at h
    · simp [hs]

/-- A successful `CharReader::next` peels exactly the head of the decoded
character stream. -/
theorem crNext_ok_decodeList {st : CharReaderSt} {v : Char × Nat × Nat} {st' : CharReaderSt}
    (h : crNext st = (.ok v, st')) :
    decodeList st.input = v.1 :: decodeList st'.input := by
  unfold crNext at h
  cases hd : decodeCp st.input with
  | error e => rw [hd] at h; cases e <;> simp at h
  | ok pr =>
    obtain ⟨cp, rest⟩ := pr
    rw [hd] at h
    dsimp only at h
    by_cases hs : isScalar cp
    · rw [decodeList_ok hd, if_pos hs]
      rw [if_pos hs] at h
      split at h <;>
      · simp only [Prod.mk.injEq, Except.ok.injEq] at h
        obtain ⟨hv, hst⟩ := h
        subst hst
        rw [← hv]
    · rw [if_neg hs] at h
      simp at h

/-- The `n`-th future `read` is the `n`-th entry of the state's denotation. -/
theorem nthReadChar_denote (n : Nat) :
    ∀ st : CharReaderSt, nthReadChar n st = (denoteChars st).get? n := by
  induction n with
  | zero =>
    intro st
    rw [nthReadChar]
    match hb : st.peekBuffer with
    | v :: rest => simp [crRead, hb, denoteChars]
    | [] =>
      simp only [crRead, hb]
      cases hn : crNext st with
      | mk r st' =>
        cases r with
        | error e =>
          simp only [denoteChars, hb, List.map_nil, List.nil_append,
            crNext_error_decodeList hn]
          rfl
        | ok v =>
          simp only [denoteChars, hb, List.map_nil, List.nil_append,
            crNext_ok_decodeList hn]
          rfl
  | succ m ih =>
    intro st
    rw [nthReadChar]
    match hb : st.peekBuffer with
    | v :: rest =>
      have hst : denoteChars st = v.1 ::
          denoteChars { st with peekBuffer := rest, peekOffset := st.peekOffset - 1 } := by
        simp [denoteChars, hb]
      simp only [crRead, hb, hst, List.get?_cons_succ]
      exact ih _
    | [] =>
      simp only [crRead, hb]
      cases hn : crNext st with
      | mk r st' =>
        cases r with
        | error e =>
          simp only [denoteChars, hb, List.map_nil, List.nil_append,
            crNext_error_decodeList hn]
          rfl
        | ok v =>
          have hbuf : st'.peekBuffer = [] := by
            rw [(crNext_ok hn).2.2.1, hb]
          simp only [denoteChars, hb, List.map_nil, List.nil_append,
            crNext_ok_decodeList hn, List.get?_cons_succ]
          rw [ih st']
          simp [denoteChars, hbuf]

/-- A successful `peek` preserves the future-read sequence, observes exactly
the entry of that sequence at the current cursor, advances the cursor, and
keeps the rewind count within the buffer. -/
theorem crPeek_ok {st : CharReaderSt} {v : Char × Nat × Nat} {st' : CharReaderSt}
    (hoff : st.peekOffset ≤ st.peekBuffer.length)
    (h : crPeek st = (.ok v, st')) :
    denoteChars st' = denoteChars st ∧
    (denoteChars st).get? (cursor st) = some v.1 ∧
    cursor st' = cursor st + 1 ∧
    st'.peekOffset ≤ st'.peekBuffer.length := by
  unfold crPeek at h
  split at h
  · rename_i hpos
    cases hg : st.peekBuffer.get? (st.peekBuffer.length - st.peekOffset) with
    | none => rw [hg] at h; simp at h
    | some w =>
      rw [hg] at h
      simp only [Prod.mk.injEq, Except.ok.injEq] at h
      obtain ⟨hv, hst⟩ := h
      subst hv hst
      have hidx : st.peekBuffer.length - st.peekOffset < st.peekBuffer.length := by
        omega
      refine ⟨rfl, ?_, ?_, ?_⟩
      · unfold denoteChars cursor
        rw [List.get?_append (by simpa using hidx), List.get?_map, hg]
        rfl
      · simp only [cursor]
        omega
      · simp only []
        omega
  · rename_i hz
    have hzero : st.peekOffset = 0 := by omega
    cases hn : crNext st with
    | mk r stn =>
      cases r with
      | error e => rw [hn] at h; simp at h
      | ok w =>
        rw [hn] at h
        simp only [Prod.mk.injEq, Except.ok.injEq] at h
        obtain ⟨hv, hst⟩ := h
        subst hv hst
        have hb := (crNext_ok hn).2.2.1
        have ho := (crNext_ok hn).2.2.2.1
        have hdl := crNext_ok_decodeList hn
        refine ⟨?_, ?_, ?_, ?_⟩
        · simp [denoteChars, hb, hdl]
        · unfold denoteChars cursor
          rw [hzero, Nat.sub_zero, hdl,
            List.get?_append_right
              (by simp : (List.map (fun x => x.1) st.peekBuffer).length ≤ st.peekBuffer.length)]
          simp
        · simp only [cursor, List.length_append, hb, ho]
          simp [hzero]
        · simp only [List.length_append, hb, ho]
          omega

/-- A successful `peek_back` preserves the future-read sequence and keeps the
rewind count within the buffer. -/
theorem crPeekBack_ok {st st' : CharReaderSt}
    (h : crPeekBack st = (.ok (), st')) :
    denoteChars st' = denoteChars st ∧ st'.peekOffset ≤ st'.peekBuffer.length := by
  unfold crPeekBack at h
  split at h
  · simp at h
  · rename_i hle
    simp only [Prod.mk.injEq] at h
    obtain ⟨-, hst⟩ := h
    subst hst
    refine ⟨rfl, ?_⟩
    simp only []
    omega

/-- Invariant carried along a run of peek / peek-back calls: the future-read
sequence is unchanged and every observation was the denotation entry at the
cursor current when it was made. -/
theorem runOps_spec :
    ∀ (ops : List LOp) (st : CharReaderSt) (obs : List (Nat × Char)) (stf : CharReaderSt),
      st.peekOffset ≤ st.peekBuffer.length →
      runOps ops st = some (obs, stf) →
      denoteChars stf = denoteChars st ∧
      ∀ p ∈ obs, (denoteChars st).get? p.1 = some p.2 := by
  intro ops
  induction ops with
  | nil =>
    intro st obs stf hoff h
    simp only [runOps, Option.some.injEq, Prod.mk.injEq] at h
    obtain ⟨h1, h2⟩ := h
    subst h1 h2
    exact ⟨rfl, by simp⟩
  | cons op ops ih =>
    intro st obs stf hoff h
    cases op with
    | peekOp =>
      rw [runOps] at h
      split at h
      · rename_i v st' hp
        obtain ⟨hde, hget, _, hoff'⟩ := crPeek_ok hoff hp
        split at h
        · rename_i obs' stf' hro
          simp only [Option.some.injEq, Prod.mk.injEq] at h
          obtain ⟨hobs, hstf⟩ := h
          subst hobs hstf
          obtain ⟨ih1, ih2⟩ := ih st' obs' stf' hoff' hro
          refine ⟨ih1.trans hde, ?_⟩
          intro p hmem
          rcases List.mem_cons.mp hmem with hhd | htl
          · subst hhd
            exact hget
          · have hp2 := ih2 p htl
            rw [hde] at hp2
            exact hp2
        · exact absurd h (by simp)
      · exact absurd h (by simp)
    | peekBackOp =>
      rw [runOps] at h
      split at h
      · rename_i u st' hp
        obtain ⟨hde, hoff'⟩ := crPeekBack_ok (by rw [hp])
        obtain ⟨ih1, ih2⟩ := ih st' obs stf hoff' h
        refine ⟨ih1.trans hde, ?_⟩
        intro p hmem
        have hp2 := ih2 p hmem
        rw [hde] at hp2
        exact hp2
      · exact absurd h (by simp)

/-- C6. For every sequence of `peek` / `peek_back` calls in which the running
peek-back count never exceeds the number of outstanding buffered peeked items
(so that every call succeeds, which is what `runOps = some _` captures), each
character observed by `peek` is exactly the character later returned by the
`read` at the corresponding position: observations and future reads agree in
content and order. -/
theorem c6_peek_read_agreement
    (ops : List LOp) (st : CharReaderSt) (obs : List (Nat × Char)) (stf : CharReaderSt)
    (hoff : st.peekOffset ≤ st.peekBuffer.length)
    (h : runOps ops st = some (obs, stf)) :
    ∀ c ch, (c, ch) ∈ obs → nthReadChar c stf = some ch := by
  intro c ch hm
  obtain ⟨hde, hget⟩ := runOps_spec ops st obs stf hoff h
  rw [nthReadChar_denote, hde]
  exact hget (c, ch) hm

/-- Witness for C6 on the stream `"ab"` with calls peek, peek-back, peek,
peek: the second peek of position 1 observes `'b'`, which the second read
later returns. -/
theorem c6_peek_read_agreement_witness :
    nthReadChar 1 { input := [], line := 1, position := 2,
                    peekBuffer := [('a', 1, 1), ('b', 1, 2)], peekOffset := 0 } = some 'b' :=
  c6_peek_read_agreement [.peekOp, .peekBackOp, .peekOp, .peekOp] (freshCR [97, 98])
    [(0, 'a'), (0, 'a'), (1, 'b')]
    { input := [], line := 1, position := 2,
      peekBuffer := [('a', 1, 1), ('b', 1, 2)], peekOffset := 0 }
    (by decide) (by decide) 1 'b' (by decide)

/-- C8. For every input stream, after `CharReader::next` successfully decodes
`'\n'` the line counter is incremented and the column reset to 0, so the next
successfully decoded codepoint reports column 1 on line `l + 1`. -/
theorem c8_newline_line_column
    (st st' : CharReaderSt) (c : Char) (l p : Nat)
    (h : crNext st = (.ok (c, l, p), st')) (hc : c = '\n') :
    st'.line = l + 1 ∧ st'.position = 0 ∧
    (∀ (st'' : CharReaderSt) (c' : Char) (l' p' : Nat),
      crNext st' = (.ok (c', l', p'), st'') → l' = l + 1 ∧ p' = 1) := by
  obtain ⟨hl, _, _, _, hupd⟩ := crNext_ok h
  rw [hc, if_pos rfl] at hupd
  subst hl
  refine ⟨hupd.1, hupd.2, ?_⟩
  intro st'' c' l' p' h'
  obtain ⟨hl', hp', _⟩ := crNext_ok h'
  rw [hl', hp', hupd.1, hupd.2]
  exact ⟨rfl, rfl⟩

/-- Witness for C8 on the concrete stream `"\na"`: the newline is reported at
line 1, column 1, and the following `a` at line 2, column 1. -/
theorem c8_newline_line_column_witness :
    ({ input := [97], line := 2, position := 0, peekBuffer := [], peekOffset := 0 } :
        CharReaderSt).line = 1 + 1 ∧
    ({ input := [97], line := 2, position := 0, peekBuffer := [], peekOffset := 0 } :
        CharReaderSt).position = 0 ∧
    (∀ (st'' : CharReaderSt) (c' : Char) (l' p' : Nat),
      crNext { input := [97], line := 2, position := 0, peekBuffer := [], peekOffset := 0 } =
        (.ok (c', l', p'), st'') → l' = 1 + 1 ∧ p' = 1) :=
  c8_newline_line_column (freshCR [10, 97])
    { input := [97], line := 2, position := 0, peekBuffer := [], peekOffset := 0 }
    '\n' 1 1 rfl rfl

/-- `CharReader::consume` called for more items than are buffered: it drains
the whole buffer (saturating the rewind count along the way), leaves the rest
of the state untouched, and then reports `ConsumeError`. -/
theorem crConsume_past_buffer :
    ∀ (n : Nat) (st : CharReaderSt), st.peekBuffer.length < n →
      crConsume n st =
        (.error .consumeError,
         { st with peekBuffer := [],
                   peekOffset := st.peekOffset - st.peekBuffer.length }) := by
  intro n
  induction n with
  | zero => intro st h; omega
  | succ m ih =>
    intro st h
    match hb : st.peekBuffer with
    | [] =>
      simp only [crConsume, hb, List.length_nil, Nat.sub_zero]
      rw [← hb]
    | v :: rest =>
      have hlen : rest.length < m := by
        have hh := h; rw [hb] at hh; simpa using hh
      have ihres := ih { st with peekBuffer := rest, peekOffset := st.peekOffset - 1 }
        (by simpa using hlen)
      simp only [crConsume, hb, ihres, List.length_cons]
      have hoff : st.peekOffset - 1 - rest.length = st.peekOffset - (rest.length + 1) := by
        omega
      simp [hoff]

/-- C10. `consume(n)` with only `k < n` buffered items fails with
`ConsumeError`, but non-atomically: the `k` buffered items have already been
removed when the error is returned, so the lookahead buffer ends up empty
rather than unchanged. -/
theorem c10_consume_not_atomic
    (n : Nat) (st : CharReaderSt) (h : st.peekBuffer.length < n) :
    (crConsume n st).1 = .error .consumeError ∧
    (crConsume n st).2.peekBuffer = [] ∧
    (crConsume n st).2 =
      { st with peekBuffer := [],
                peekOffset := st.peekOffset - st.peekBuffer.length } := by
  rw [crConsume_past_buffer n st h]
  exact ⟨rfl, rfl, rfl⟩

/-- Witness for C10: a reader with one buffered codepoint asked to consume
two of them errors out with its buffer emptied. -/
theorem c10_consume_not_atomic_witness :
    (crConsume 2 { input := [], line := 1, position := 1,
                   peekBuffer := [('a', 1, 1)], peekOffset := 1 }).1 =
        .error .consumeError ∧
    (crConsume 2 { input := [], line := 1, position := 1,
                   peekBuffer := [('a', 1, 1)], peekOffset := 1 }).2.peekBuffer = [] ∧
    (crConsume 2 { input := [], line := 1, position := 1,
                   peekBuffer := [('a', 1, 1)], peekOffset := 1 }).2 =
      { input := [], line := 1, position := 1, peekBuffer := [], peekOffset := 0 } :=
  c10_consume_not_atomic 2
    { input := [], line := 1, position := 1, peekBuffer := [('a', 1, 1)], peekOffset := 1 }
    (by decide)

/-! ## Values and schema types (`src/node/src/lib.rs`) -/

/-- The character filter of `parse_number`: the Rust `match` arms
`'-' | '1'..='9' | '0' | '.' | 'e' | 'E'`.  Note that `'-'` is accepted at
every position, not only at the front. -/
def numChar (c : Char) : Bool :=
  c = '-' || ('1' ≤ c && c ≤ '9') || c = '0' || c = '.' || c = 'e' || c = 'E'

/-- Split an optional leading sign, Rust-style: returns (is-negative, rest). -/
def splitSign (l : List Char) : Bool × List Char :=
  match l with
  | '-' :: t => (true, t)
  | '+' :: t => (false, t)
  | _ => (false, l)

/-- Whether Rust's `str::parse::<f64>` succeeds: an optional sign, then either
a special (`inf`/`infinity`/`nan`, case-insensitive) or a mantissa with at
least one digit (digits, optional `.`, digits) and an optional `e`/`E`
exponent with an optional sign and at least one digit. -/
def rustF64Accepts (s : String) : Bool :=
  let l := (splitSign s.data).2
  let lower := l.map Char.toLower
  if lower = "inf".data ∨ lower = "infinity".data ∨ lower = "nan".data then true
  else
    let d1 := l.takeWhile Char.isDigit
    let r1 := l.dropWhile Char.isDigit
    let d2 := match r1 with
      | '.' :: t => t.takeWhile Char.isDigit
      | _ => []
    let r2 := match r1 with
      | '.' :: t => t.dropWhile Char.isDigit
      | _ => r1
    if d1.isEmpty && d2.isEmpty then false
    else
      match r2 with
      | [] => true
      | c :: t =>
        if c = 'e' ∨ c = 'E' then
          let u := match t with
            | '-' :: u => u
            | '+' :: u => u
            | _ => t
          !u.isEmpty && u.all Char.isDigit
        else false

/-- The numeric value of a digit string. -/
def natOfDigits (l : List Char) : Nat :=
  l.foldl (fun a c => a * 10 + (c.toNat - 48)) 0

/-- Model of `f64::to_string` applied to the `f64` that Rust parses out of an
accepted decimal literal: the exact decimal value, normalized (no leading or
trailing zero digits, no exponent — Rust's `Display` for `f64` never prints
scientific notation, and for every decimal short enough to round-trip the
shortest re-rendering is this normal form).  The rounding that `f64` applies
to longer mantissas, and the overflow of huge exponents to `inf`, are not
modelled; no theorem in this file depends on a rendering produced here. -/
def f64Render (s : String) : String :=
  let (neg, l) := splitSign s.data
  let d1 := l.takeWhile Char.isDigit
  let r1 := l.dropWhile Char.isDigit
  let d2 := match r1 with
    | '.' :: t => t.takeWhile Char.isDigit
    | _ => []
  let r2 := match r1 with
    | '.' :: t => t.dropWhile Char.isDigit
    | _ => r1
  let e : Int := match r2 with
    | c :: t =>
      if c = 'e' ∨ c = 'E' then
        match t with
        | '-' :: u => -(natOfDigits u : Int)
        | '+' :: u => (natOfDigits u : Int)
        | u => (natOfDigits u : Int)
      else 0
    | [] => 0
  let digits := d1 ++ d2
  let exp : Int := e - d2.length
  let digits := digits.dropWhile (· = '0')
  let tz := (digits.reverse.takeWhile (· = '0')).length
  let exp := exp + tz
  let digits := digits.take (digits.length - tz)
  let sign := if neg then "-" else ""
  if digits.isEmpty then sign ++ "0"
  else if 0 ≤ exp then
    sign ++ String.mk (digits ++ List.replicate exp.toNat '0')
  else
    let n := (-exp).toNat
    if n < digits.length then
      sign ++ String.mk (digits.take (digits.length - n) ++ '.' :: digits.drop (digits.length - n))
    else
      sign ++ "0." ++ String.mk (List.replicate (n - digits.length) '0' ++ digits)

/-- `value.parse::<f64>()`, with the resulting double represented by its
`to_string` rendering (the only observation the embedded code makes of it). -/
def rustParseF64 (s : String) : Option String :=
  if rustF64Accepts s then some (f64Render s) else none

/-- `node::Value`.  The `f64` payload of `Number` is represented by its
decimal `to_string` rendering; `Object`'s `HashMap` is represented by an
association list (iteration order modelled as insertion order). -/
inductive Value where
  | string (s : String) : Value
  | number (render : String) : Value
  | boolean (b : Bool) : Value
  | object (fields : List (String × Value)) : Value

def Value.isNumber : Value → Bool
  | .number _ => true
  | _ => false

def Value.isString : Value → Bool
  | .string _ => true
  | _ => false

/-- `parse_number`: the whole text must pass the `numChar` filter (the first
character is checked first, then the loop), and then `parse::<f64>` decides. -/
def parseNumber (input : String) : Option Value :=
  match input.data with
  | [] => none
  | c :: rest =>
    if numChar c then
      if rest.all numChar then
        match rustParseF64 input with
        | some r => some (.number r)
        | none => none
      else none
    else none

/-- `parse_boolean`: exact match of `"true"` / `"false"`. -/
def parseBoolean (input : String) : Option Value :=
  if input = "true" then some (.boolean true)
  else if input = "false" then some (.boolean false)
  else none

/-- `impl From<String> for Value`: numeric parse, else boolean, else String. -/
def valueFrom (s : String) : Value :=
  match parseNumber s with
  | some v => v
  | none =>
    match parseBoolean s with
    | some v => v
    | none => .string s

/-- `node::SchemaType`. -/
inductive SchemaType where
  | integer : SchemaType
  | float : SchemaType
  | boolean : SchemaType
  | string : SchemaType
deriving Repr, DecidableEq

/-- `impl From<String> for SchemaType`: unknown names degrade to `String`. -/
def schemaTypeFrom (s : String) : SchemaType :=
  if s = "integer" then .integer
  else if s = "bool" then .boolean
  else if s = "float" then .float
  else .string

/-- `SchemaType::format`. -/
def SchemaType.format : SchemaType → String
  | .integer => "integer"
  | .float => "float"
  | .boolean => "bool"
  | .string => "string"

def indentRepeat (level : Nat) : String := String.join (List.replicate level "  ")

mutual

/-- The `inner` helper of `Value::format`: strings quoted, numbers and
booleans bare, objects brace-delimited with two-space indentation. -/
def formatInner : Value → Nat → String
  | .string v, _ => "\"" ++ v ++ "\""
  | .number v, _ => v
  | .boolean v, _ => if v then "true" else "false"
  | .object o, level =>
    "\x7b\n" ++ String.intercalate ",\n" (formatFields o (level + 1)) ++ "\n" ++
      indentRepeat level ++ "\x7d"

/-- The field lines of an object rendering, at the given indentation level. -/
def formatFields : List (String × Value) → Nat → List String
  | [], _ => []
  | (k, v) :: rest, level =>
    (indentRepeat level ++ "\"" ++ k ++ "\": " ++ formatInner v level) ::
      formatFields rest level

end

/-- `Value::format`. -/
def Value.format (v : Value) : String := formatInner v 0

/-- Whether `str::parse::<isize>` succeeds on a 64-bit platform: an optional
single sign, at least one digit, only digits, and the value within
`[-2^63, 2^63 - 1]`. -/
def parsesIsize (s : String) : Bool :=
  match s.data with
  | [] => false
  | c :: rest =>
    let (neg, digits) :=
      if c = '-' then (true, rest)
      else if c = '+' then (false, rest)
      else (false, c :: rest)
    !digits.isEmpty && digits.all Char.isDigit &&
      (if neg then natOfDigits digits ≤ 2 ^ 63 else natOfDigits digits ≤ 2 ^ 63 - 1)

/-- The `MismatchedType` message text built in `Value::check` (both failing
arms build the same string). -/
def mismatchMsg (v : Value) (t : SchemaType) : String :=
  "`" ++ t.format ++ "` 型として指定されていますが `" ++ Value.format v ++ "` は `" ++
    t.format ++ "` として解釈できません"

/-- `Value::check`: Boolean/Boolean, String/String and Number/Float succeed;
Number/Integer succeeds iff the number's `to_string` re-parses as `isize`;
everything else fails with the mismatch message. -/
def check (v : Value) (t : SchemaType) : Except String Unit :=
  match v, t with
  | .boolean _, .boolean => .ok ()
  | .string _, .string => .ok ()
  | .number _, .float => .ok ()
  | .number r, .integer =>
    if parsesIsize r then .ok () else .error (mismatchMsg (.number r) .integer)
  | v, t => .error (mismatchMsg v t)

/-! ## Statements and the evaluator (`src/node/src/lib.rs`) -/

/-- `node::Statement<T>`: a `Path` (ordered fragment sequence, front first,
matching `VecDeque` with `push_back`/`pop_front`) paired with a payload. -/
structure Statement (U : Type) where
  path : List String
  value : U

/-- `Path::to_string`: fragments joined with `"."`. -/
def pathToString (p : List String) : String := String.intercalate "." p

/-- `HashMap::get` on the association-list model of an object. -/
def assocGet : List (String × Value) → String → Option Value
  | [], _ => none
  | (k, v) :: rest, key => if k = key then some v else assocGet rest key

/-- `HashMap::entry` + occupied-replace / vacant-insert on the model. -/
def assocUpdate : List (String × Value) → String → Value → List (String × Value)
  | [], key, v => [(key, v)]
  | (k, w) :: rest, key, v =>
    if k = key then (k, v) :: rest else (k, w) :: assocUpdate rest key v

/-- `node::error::Error`. -/
inductive EvalErr where
  | mismatchedType (msg : String) : EvalErr
  | objectOverride (key : String) : EvalErr

/-- Outcome of `Statement::evaluate`: a value, an `Error`, or an abort through
the `unreachable!` in the descent loop. -/
inductive EvalResult where
  | ok (v : Value) : EvalResult
  | err (e : EvalErr) : EvalResult
  | panicked : EvalResult

/-- Outcome of inserting one statement's value into the tree. -/
inductive InsertRes where
  | ok (v : Value) : InsertRes
  | overrideErr : InsertRes
  | panicked : InsertRes

/-- The `while let Some(fragment) = path.pop()` descent of
`Statement::evaluate`: on the last fragment insert-or-overwrite into an
`Object` (anything else is the `ObjectOverride` conflict); on earlier
fragments descend into the entry, creating an empty `Object` when vacant —
and hit `unreachable!` when the entry holds a non-`Object`. -/
def insertFrags : Value → List String → Value → InsertRes
  | cur, [], _ => .ok cur
  | cur, [f], v =>
    match cur with
    | .object o => .ok (.object (assocUpdate o f v))
    | _ => .overrideErr
  | cur, f :: rest, v =>
    match cur with
    | .object o =>
      match insertFrags ((assocGet o f).getD (.object [])) rest v with
      | .ok child => .ok (.object (assocUpdate o f child))
      | .overrideErr => .overrideErr
      | .panicked => .panicked
    | _ => .panicked

/-- `HashMap<Path, SchemaType>::get` on the association-list schema model. -/
def schemaGet : List (List String × SchemaType) → List String → Option SchemaType
  | [], _ => none
  | (p, t) :: rest, path => if p = path then some t else schemaGet rest path

/-- `Statement::evaluate`: fold the statements in order into one root
`Object`, checking each statement against the schema entry for its path (if
any) and failing fast on the first mismatch or conflict. -/
def evaluate (stmts : List (Statement Value))
    (schema : Option (List (List String × SchemaType))) : EvalResult :=
  go stmts (.object [])
where
  go : List (Statement Value) → Value → EvalResult
  | [], acc => .ok acc
  | ⟨path, value⟩ :: rest, acc =>
    let key := pathToString path
    let checked : Option EvalErr :=
      match schema with
      | some sch =>
        match schemaGet sch path with
        | some t =>
          match check value t with
          | .error s => some (.mismatchedType ("`" ++ key ++ "` は " ++ s))
          | .ok _ => none
        | none => none
      | none => none
    match checked with
    | some e => .err e
    | none =>
      match insertFrags acc path value with
      | .ok acc' => go rest acc'
      | .overrideErr => .err (.objectOverride key)
      | .panicked => .panicked

/-- C1 (code bug).  A leaf assigned at a proper prefix of a later path is
reported as `ObjectOverride` only when the prefix sits immediately above the
later path's last fragment; when the later path descends at least two levels
below the leaf, the descent loop's `unreachable!` is reached and evaluation
panics instead of returning the claimed error.  The second conjunct is the
depth-one case, which does return `ObjectOverride` naming the full key. -/
theorem c1_prefix_conflict :
    evaluate [⟨["foo"], .number "456"⟩, ⟨["foo", "bar", "baz"], .number "123"⟩] none =
      .panicked ∧
    evaluate [⟨["foo"], .number "456"⟩, ⟨["foo", "bar"], .number "123"⟩] none =
      .err (.objectOverride "foo.bar") :=
  ⟨rfl, rfl⟩

/-- C2 (counterexample).  `Value::from("1e-5")` infers a Number, not a String
as claimed: the `'-'` arm of `parse_number`'s filter accepts `'-'` at every
position, and `"1e-5".parse::<f64>()` succeeds. -/
theorem c2_exponent_counterexample :
    (valueFrom "1e-5").isNumber = true ∧ (valueFrom "1e-5").isString = false :=
  ⟨rfl, rfl⟩

/-- C2 (amended).  The accepted character set of `parse_number` is digits,
`-` at any position, `.`, and `e`/`E`; any character outside this set aborts
numeric parsing, in which case the value falls through to boolean inference
and then String — and `1e-5` (all of whose characters pass) infers as a
Number. -/
theorem c2_number_inference :
    (∀ (s : String) (c : Char), c ∈ s.data → numChar c = false →
      valueFrom s = (parseBoolean s).getD (.string s)) ∧
    (valueFrom "1e-5").isNumber = true := by
  constructor
  · intro s c hc hnc
    have hpn : parseNumber s = none := by
      unfold parseNumber
      match hs : s.data with
      | [] => rfl
      | a :: rest =>
        rw [hs] at hc
        rcases List.mem_cons.mp hc with h1 | h2
        · subst h1
          simp [hnc]
        · by_cases ha : numChar a
          · have hall : rest.all numChar = false := by
              simp only [List.all_eq_false]
              exact ⟨c, h2, by simp [hnc]⟩
            simp [ha, hall]
          · simp [ha]
    unfold valueFrom
    rw [hpn]
    cases parseBoolean s <;> rfl
  · rfl

/-- Witness for the amended C2: `a-b` contains the non-numeric character `a`,
so it falls through to boolean/string inference. -/
theorem c2_number_inference_witness :
    valueFrom "a-b" = (parseBoolean "a-b").getD (.string "a-b") :=
  c2_number_inference.1 "a-b" 'a' (by decide) (by decide)

/-- The failing arms of `Value::check` all carry the mismatch message. -/
theorem check_error_msg {v : Value} {t : SchemaType} {m : String}
    (h : check v t = .error m) : m = mismatchMsg v t := by
  cases v with
  | number r =>
    cases t with
    | integer =>
      replace h : (if parsesIsize r = true then (Except.ok () : Except String Unit)
          else .error (mismatchMsg (.number r) .integer)) = .error m := h
      split at h
      · exact absurd h (by simp)
      · injection h with h2
        exact h2.symm
    | float => injection h
    | boolean => injection h with h2; exact h2.symm
    | string => injection h with h2; exact h2.symm
  | boolean b =>
    cases t with
    | boolean => injection h
    | integer => injection h with h2; exact h2.symm
    | float => injection h with h2; exact h2.symm
    | string => injection h with h2; exact h2.symm
  | string s =>
    cases t with
    | string => injection h
    | integer => injection h with h2; exact h2.symm
    | float => injection h with h2; exact h2.symm
    | boolean => injection h with h2; exact h2.symm
  | object o =>
    cases t <;> (injection h with h2; exact h2.symm)

/-- C4.  `Value::check` against a schema type: a Number always matches
`Float`; a Number matches `Integer` exactly when its decimal rendering
re-parses as a platform-sized (64-bit) integer; and every failing pairing
produces a message embedding the declared type name and the value's rendered
form. -/
theorem c4_check_number_schema :
    (∀ r : String, check (.number r) .float = .ok ()) ∧
    (∀ r : String, check (.number r) .integer = .ok () ↔ parsesIsize r = true) ∧
    (∀ (v : Value) (t : SchemaType) (m : String), check v t = .error m →
      ∃ p q u : String, m = p ++ t.format ++ q ++ Value.format v ++ u) := by
  refine ⟨fun r => rfl, fun r => ⟨fun h => ?_, fun hp => ?_⟩, fun v t m h => ?_⟩
  · by_cases hp : parsesIsize r
    · exact hp
    · replace h : (if parsesIsize r = true then (Except.ok () : Except String Unit)
          else .error (mismatchMsg (.number r) .integer)) = .ok () := h
      rw [if_neg hp] at h
      cases h
  · show (if parsesIsize r = true then (Except.ok () : Except String Unit)
      else .error (mismatchMsg (.number r) .integer)) = .ok ()
    rw [if_pos hp]
  · refine ⟨"`", "` 型として指定されていますが `",
      "` は `" ++ t.format ++ "` として解釈できません", ?_⟩
    rw [check_error_msg h]
    simp [mismatchMsg, Value.format, String.append_assoc]

/-- Witness for C4: `42` is an integer-compatible Number, and the failing
pairing Boolean-vs-Integer embeds `integer` and `true` in its message. -/
theorem c4_check_number_schema_witness :
    check (.number "42") .float = .ok () ∧
    check (.number "42") .integer = .ok () ∧
    (∃ p q u : String, mismatchMsg (.boolean true) .integer =
      p ++ SchemaType.format .integer ++ q ++ Value.format (.boolean true) ++ u) :=
  ⟨c4_check_number_schema.1 "42",
   (c4_check_number_schema.2.1 "42").mpr rfl,
   c4_check_number_schema.2.2 (.boolean true) .integer
     (mismatchMsg (.boolean true) .integer) rfl⟩

/-! ## Lexer (`src/parser/src/lexer/`) -/

/-- `token::Location`: line plus the inclusive start..end column range. -/
structure Loc where
  line : Nat
  startPos : Nat
  endPos : Nat
deriving Repr, DecidableEq

/-- `token::Type`. -/
inductive Ty where
  | space : Ty
  | ret : Ty
  | dot : Ty
  | equal : Ty
  | ignoreTok : Ty
  | commentTok : Ty
  | ident (s : String) : Ty
  | eof : Ty
deriving Repr, DecidableEq

/-- `token::Token`. -/
structure Token where
  loc : Loc
  ty : Ty
deriving Repr, DecidableEq

/-- `lexer::error::Error`. -/
inductive LexErr where
  | eofL : LexErr
  | readerError (msg : String) : LexErr
deriving Repr, DecidableEq

/-- The `thiserror` display strings of `char_reader::error::Error`. -/
def CError.toMessage : CError → String
  | .peekBackError => "Peekバッファの範囲外へのpeek_backが要求されました"
  | .consumeError => "PeekされていないConsumeが発生しました"
  | .eofErr _ _ => ""
  | .invalidUTF8 b l p =>
    "Line: " ++ toString l ++ ", Position: " ++ toString p ++ " で不正なバイト（" ++
      toString b ++ "）を検知しました。多バイト区切りが破損している可能性があります"
  | .invalidCodepoint cp l p =>
    "Line: " ++ toString l ++ ", Position: " ++ toString p ++ " で不正なコードポイント（" ++
      toString cp ++ "）を検知しました"
  | .readError m => m

/-- `impl From<char_reader::Error> for lexer::Error`. -/
def lexErrOfCr (e : CError) : LexErr :=
  match e with
  | .eofErr _ _ => .eofL
  | e => .readerError e.toMessage

/-- `Lexer::resolve_token`: how a single codepoint (at its column) would be
classified; `none` means it extends an identifier. -/
def resolveToken (c : Char) (pos : Nat) : Option Ty :=
  if c = ' ' ∨ c = '\t' ∨ c = '\r' then some .space
  else if c = '\n' then some .ret
  else if c = '.' then some .dot
  else if c = '=' then some .equal
  else if (c = '#' ∨ c = ';') ∧ pos = 1 then some .commentTok
  else if c = '-' ∧ pos = 1 then some .ignoreTok
  else none

/-- Lexer state: the wrapped `CharReader` and the one-token peek cache. -/
structure LexSt where
  cr : CharReaderSt
  peeking : Option (Except LexErr Token)

/-- The whitespace-merging loop of `Lexer::next`: extend the Space token
while the peeked codepoint is also horizontal whitespace, returning the last
covered column. -/
def spaceLoop : Nat → CharReaderSt → Nat → (Except LexErr Nat) × CharReaderSt
  | 0, st, _ => (.error (.readerError "fuel exhausted"), st)
  | fuel + 1, st, lastPos =>
    match crPeek st with
    | (.error (.eofErr _ _), st') => (.ok lastPos, st')
    | (.error e, st') => (.error (lexErrOfCr e), st')
    | (.ok (c, _, p), st') =>
      if resolveToken c p = some .space then
        match crRead st' with
        | (.error e, st'') => (.error (lexErrOfCr e), st'')
        | (.ok _, st'') => spaceLoop fuel st'' p
      else
        (.ok lastPos, st')

/-- The identifier-extending loop of `Lexer::next`: extend while the peeked
codepoint resolves to no special token; when the accumulated text becomes
exactly `->`, emit an Equal token instead. -/
def identLoop : Nat → CharReaderSt → String → Nat → Nat → Nat →
    (Except LexErr Token) × CharReaderSt
  | 0, st, _, _, _, _ => (.error (.readerError "fuel exhausted"), st)
  | fuel + 1, st, value, line, startPos, lastPos =>
    match crPeek st with
    | (.error (.eofErr _ _), st') => (.ok ⟨⟨line, startPos, lastPos⟩, .ident value⟩, st')
    | (.error e, st') => (.error (lexErrOfCr e), st')
    | (.ok (c, _, p), st') =>
      if resolveToken c p = none then
        let value' := value.push c
        match crRead st' with
        | (.error e, st'') => (.error (lexErrOfCr e), st'')
        | (.ok _, st'') =>
          if value' = "->" then (.ok ⟨⟨line, startPos, p⟩, .equal⟩, st'')
          else identLoop fuel st'' value' line startPos p
      else
        (.ok ⟨⟨line, startPos, lastPos⟩, .ident value⟩, st')

/-- The body of `Lexer::next` when no token is cached: read one codepoint
(EOF becomes a successful zero-width EOF token) and classify it. -/
def lexNextRaw (fuel : Nat) (st : CharReaderSt) : (Except LexErr Token) × CharReaderSt :=
  match crRead st with
  | (.error (.eofErr l p), st') => (.ok ⟨⟨l, p, p⟩, .eof⟩, st')
  | (.error e, st') => (.error (lexErrOfCr e), st')
  | (.ok (c, line, pos), st') =>
    if c = ' ' ∨ c = '\t' ∨ c = '\r' then
      match spaceLoop fuel st' pos with
      | (.ok lastPos, st'') => (.ok ⟨⟨line, pos, lastPos⟩, .space⟩, st'')
      | (.error e, st'') => (.error e, st'')
    else if c = '\n' then (.ok ⟨⟨line, pos, pos⟩, .ret⟩, st')
    else if c = '.' then (.ok ⟨⟨line, pos, pos⟩, .dot⟩, st')
    else if c = '=' then (.ok ⟨⟨line, pos, pos⟩, .equal⟩, st')
    else if (c = '#' ∨ c = ';') ∧ pos = 1 then (.ok ⟨⟨line, pos, pos⟩, .commentTok⟩, st')
    else if c = '-' ∧ pos = 1 then (.ok ⟨⟨line, pos, pos⟩, .ignoreTok⟩, st')
    else identLoop fuel st' (String.mk [c]) line pos pos

/-- `Lexer::next`: drain the peek cache first. -/
def lexNext (fuel : Nat) (ls : LexSt) : (Except LexErr Token) × LexSt :=
  match ls.peeking with
  | some r => (r, { ls with peeking := none })
  | none =>
    match lexNextRaw fuel ls.cr with
    | (r, cr') => (r, ⟨cr', none⟩)

/-- `Lexer::peek`: compute once, cache until drained (errors are cached
too). -/
def lexPeek (fuel : Nat) (ls : LexSt) : (Except LexErr Token) × LexSt :=
  match ls.peeking with
  | some r => (r, ls)
  | none =>
    match lexNextRaw fuel ls.cr with
    | (r, cr') => (r, ⟨cr', some r⟩)

/-! ## Parser (`src/parser/src/lib.rs`) -/

/-- `parser::error::Error`, plus a distinguished `panicked` outcome modelling
the `unreachable!` aborts of `parse_key` (a Rust panic is not an error value;
no recovery path treats it as one). -/
inductive PError where
  | syntaxError (msg : String) (loc : Loc) : PError
  | lexerError (msg : String) : PError
  | panicked (msg : String) : PError
deriving Repr, DecidableEq

/-- The `thiserror` display strings of `lexer::error::Error`. -/
def LexErr.toMessage : LexErr → String
  | .eofL => ""
  | .readerError m => m

/-- `impl From<lexer::Error> for parser::Error`. -/
def pErrOfLex (e : LexErr) : PError := .lexerError e.toMessage

/-- Parser state: the lexer plus the best-effort (`ignore`) flag. -/
structure PSt where
  lex : LexSt
  ignore : Bool

/-- Rust `str::trim` on the value texts this parser builds (whose ends can
only carry ASCII whitespace — Space tokens contribute a literal `' '`; the
full Unicode `White_Space` set of Rust's `trim` is not modelled). -/
def isRustWhitespace (c : Char) : Bool := c = ' ' || c = '\t' || c = '\n' || c = '\r'

def rustTrim (s : String) : String :=
  String.mk (((s.data.dropWhile isRustWhitespace).reverse.dropWhile isRustWhitespace).reverse)

/-- The lookahead loop of `Parser::parse_key`: Dot and Ident extend the key
until a Space/Equal flips `value_phase`, after which Dot/Ident terminate the
key; any other token is consumed and reported as a key SyntaxError. -/
def parseKeyLoop : Nat → LexSt → List String → Bool → (Except PError (List String)) × LexSt
  | 0, ls, _, _ => (.error (.lexerError "fuel exhausted"), ls)
  | fuel + 1, ls, path, valuePhase =>
    match lexPeek fuel ls with
    | (.error e, ls') => (.error (pErrOfLex e), ls')
    | (.ok t, ls') =>
      match t.ty with
      | .dot =>
        if valuePhase then (.ok path, ls')
        else
          match lexNext fuel ls' with
          | (.error e, ls'') => (.error (pErrOfLex e), ls'')
          | (.ok _, ls'') => parseKeyLoop fuel ls'' path valuePhase
      | .ident _ =>
        if valuePhase then (.ok path, ls')
        else
          match lexNext fuel ls' with
          | (.ok ⟨_, .ident v⟩, ls'') => parseKeyLoop fuel ls'' (path ++ [v]) valuePhase
          | (.ok _, ls'') => (.error (.panicked "peek結果と異なる"), ls'')
          | (.error e, ls'') => (.error (pErrOfLex e), ls'')
      | .space =>
        match lexNext fuel ls' with
        | (.error e, ls'') => (.error (pErrOfLex e), ls'')
        | (.ok _, ls'') => parseKeyLoop fuel ls'' path true
      | .equal =>
        match lexNext fuel ls' with
        | (.error e, ls'') => (.error (pErrOfLex e), ls'')
        | (.ok _, ls'') => parseKeyLoop fuel ls'' path true
      | _ =>
        match lexNext fuel ls' with
        | (.ok t', ls'') => (.error (.syntaxError "キーの読み出しに失敗しました。" t'.loc), ls'')
        | (.error e, ls'') => (.error (pErrOfLex e), ls'')

/-- `Parser::parse_key`: the first token must be the Ident the caller peeked
(anything else is the `unreachable!`), then the loop runs.  Only the lexer is
touched, so it is a function of the lexer state. -/
def parseKey (fuel : Nat) (ls : LexSt) : (Except PError (List String)) × LexSt :=
  match lexNext fuel ls with
  | (.error e, ls') => (.error (pErrOfLex e), ls')
  | (.ok ⟨_, .ident v⟩, ls') => parseKeyLoop fuel ls' [v] false
  | (.ok _, ls') => (.error (.panicked "peekと内容が違う"), ls')

/-- The accumulation loop of `Parser::parse_value`: Space appends `' '`, Dot
appends `'.'`, Ident appends its text; Return/EOF clears the best-effort flag
and converts the trimmed text; anything else is a value SyntaxError. -/
def parseValueLoop {U : Type} (fromStr : String → U) :
    Nat → PSt → String → (Except PError U) × PSt
  | 0, st, _ => (.error (.lexerError "fuel exhausted"), st)
  | fuel + 1, st, total =>
    match lexNext fuel st.lex with
    | (.error e, ls) => (.error (pErrOfLex e), ⟨ls, st.ignore⟩)
    | (.ok t, ls) =>
      match t.ty with
      | .space => parseValueLoop fromStr fuel ⟨ls, st.ignore⟩ (total.push ' ')
      | .dot => parseValueLoop fromStr fuel ⟨ls, st.ignore⟩ (total.push '.')
      | .ident v => parseValueLoop fromStr fuel ⟨ls, st.ignore⟩ (total ++ v)
      | .ret => (.ok (fromStr (rustTrim total)), ⟨ls, false⟩)
      | .eof => (.ok (fromStr (rustTrim total)), ⟨ls, false⟩)
      | _ => (.error (.syntaxError "値の後は改行か末尾しか認められません" t.loc), ⟨ls, st.ignore⟩)

/-- `Parser::parse_value`: the first token must be an Ident or a Dot. -/
def parseValue {U : Type} (fromStr : String → U) (fuel : Nat) (st : PSt) :
    (Except PError U) × PSt :=
  match lexNext fuel st.lex with
  | (.error e, ls) => (.error (pErrOfLex e), ⟨ls, st.ignore⟩)
  | (.ok t, ls) =>
    match t.ty with
    | .ident v => parseValueLoop fromStr fuel ⟨ls, st.ignore⟩ v
    | .dot => parseValueLoop fromStr fuel ⟨ls, st.ignore⟩ "."
    | _ => (.error (.syntaxError "値は識別子以外を指定できません" t.loc), ⟨ls, st.ignore⟩)

/-- `Parser::read_until_line_end`: consume tokens through the next Return or
EOF, then clear the best-effort flag (errors propagate before the flag is
cleared). -/
def readUntilLineEnd : Nat → PSt → (Except PError Unit) × PSt
  | 0, st => (.error (.lexerError "fuel exhausted"), st)
  | fuel + 1, st =>
    match lexNext fuel st.lex with
    | (.error e, ls) => (.error (pErrOfLex e), ⟨ls, st.ignore⟩)
    | (.ok t, ls) =>
      match t.ty with
      | .ret => (.ok (), ⟨ls, false⟩)
      | .eof => (.ok (), ⟨ls, false⟩)
      | _ => readUntilLineEnd fuel ⟨ls, st.ignore⟩

/-- The swallow-and-resynchronize block that `Parser::parse_statement`
repeats verbatim in its key-error and value-error arms: peek (a peek error
falls through the `_ => {}` arm), skip to the line end unless the next token
already starts a new line at column 1, clear the best-effort flag, and yield
no statement. -/
def recoverStatement {U : Type} (fuel : Nat) (ls : LexSt) (ig : Bool) :
    (Except PError (Option (Statement U))) × PSt :=
  match lexPeek fuel ls with
  | (.ok t, ls₂) =>
    if t.loc.startPos ≠ 1 then
      match readUntilLineEnd fuel ⟨ls₂, ig⟩ with
      | (.error e, st₃) => (.error e, st₃)
      | (.ok _, st₃) => (.ok none, { st₃ with ignore := false })
    else (.ok none, ⟨ls₂, false⟩)
  | (.error _, ls₂) => (.ok none, ⟨ls₂, false⟩)

/-- `Parser::parse_statement`: parse key then value; a SyntaxError in either
phase while the best-effort flag is set is swallowed via `recoverStatement`
and yields no statement. -/
def parseStatement {U : Type} (fromStr : String → U) (fuel : Nat) (st : PSt) :
    (Except PError (Option (Statement U))) × PSt :=
  match parseKey fuel st.lex with
  | (.error (.syntaxError s l), ls₁) =>
    if st.ignore then recoverStatement fuel ls₁ st.ignore
    else (.error (.syntaxError s l), ⟨ls₁, st.ignore⟩)
  | (.error e, ls₁) => (.error e, ⟨ls₁, st.ignore⟩)
  | (.ok path, ls₁) =>
    match parseValue fromStr fuel ⟨ls₁, st.ignore⟩ with
    | (.error (.syntaxError s l), st₂) =>
      if st₂.ignore then recoverStatement fuel st₂.lex st₂.ignore
      else (.error (.syntaxError s l), st₂)
    | (.error e, st₂) => (.error e, st₂)
    | (.ok v, st₂) => (.ok (some ⟨path, v⟩), st₂)

/-- The dispatch loop of `Parser::parse`, with the accumulated
`Vec<Option<Statement>>`. -/
def parseLoop {U : Type} (fromStr : String → U) :
    Nat → PSt → List (Option (Statement U)) → (Except PError (List (Statement U))) × PSt
  | 0, st, _ => (.error (.lexerError "fuel exhausted"), st)
  | fuel + 1, st, acc =>
    match lexPeek fuel st.lex with
    | (.error e, ls) => (.error (pErrOfLex e), ⟨ls, st.ignore⟩)
    | (.ok t, ls) =>
      match t.ty with
      | .eof => (.ok (acc.filterMap id), ⟨ls, st.ignore⟩)
      | .ident _ =>
        match parseStatement fromStr fuel ⟨ls, st.ignore⟩ with
        | (.ok o, st') => parseLoop fromStr fuel st' (acc ++ [o])
        | (.error e, st') => (.error e, st')
      | .ignoreTok =>
        if st.ignore then
          (.error (.syntaxError "Ignoreが複数回指定されています。" t.loc), ⟨ls, st.ignore⟩)
        else
          match lexNext fuel ls with
          | (.error e, ls') => (.error (pErrOfLex e), ⟨ls', true⟩)
          | (.ok _, ls') => parseLoop fromStr fuel ⟨ls', true⟩ acc
      | .commentTok =>
        match readUntilLineEnd fuel ⟨ls, st.ignore⟩ with
        | (.error e, st') => (.error e, st')
        | (.ok _, st') => parseLoop fromStr fuel st' acc
      | .space =>
        match lexNext fuel ls with
        | (.error e, ls') => (.error (pErrOfLex e), ⟨ls', st.ignore⟩)
        | (.ok _, ls') => parseLoop fromStr fuel ⟨ls', st.ignore⟩ acc
      | .ret =>
        match lexNext fuel ls with
        | (.error e, ls') => (.error (pErrOfLex e), ⟨ls', false⟩)
        | (.ok _, ls') => parseLoop fromStr fuel ⟨ls', false⟩ acc
      | _ =>
        (.error (.syntaxError "行頭はコメントか識別子かIgnoreのみ認められています" t.loc),
         ⟨ls, st.ignore⟩)

/-- `Parser::parse`. -/
def parse {U : Type} (fromStr : String → U) (fuel : Nat) (st : PSt) :
    (Except PError (List (Statement U))) × PSt :=
  parseLoop fromStr fuel st []

/-- UTF-8 encoding of one scalar value (to feed test sources to the byte
reader). -/
def encodeChar (c : Char) : List Nat :=
  let n := c.toNat
  if n < 0x80 then [n]
  else if n < 0x800 then [0xC0 ||| (n >>> 6), 0x80 ||| (n &&& 0x3F)]
  else if n < 0x10000 then
    [0xE0 ||| (n >>> 12), 0x80 ||| ((n >>> 6) &&& 0x3F), 0x80 ||| (n &&& 0x3F)]
  else
    [0xF0 ||| (n >>> 18), 0x80 ||| ((n >>> 12) &&& 0x3F),
     0x80 ||| ((n >>> 6) &&& 0x3F), 0x80 ||| (n &&& 0x3F)]

def strBytes (s : String) : List Nat := (s.data.map encodeChar).join

/-- A fresh `Parser::new` over a source string. -/
def freshP (s : String) : PSt := ⟨⟨freshCR (strBytes s), none⟩, false⟩

/-- The directive-file instantiation `Parser<_, Value>` run on a string. -/
def parseConf (s : String) (fuel : Nat) : (Except PError (List (Statement Value))) × PSt :=
  parse valueFrom fuel (freshP s)

/-- `read_until_line_end` either succeeds or propagates a lexer-level error;
it never produces a SyntaxError. -/
theorem readUntilLineEnd_res :
    ∀ (fuel : Nat) (st : PSt),
      (∃ st', readUntilLineEnd fuel st = (.ok (), st')) ∨
      (∃ m st', readUntilLineEnd fuel st = (.error (.lexerError m), st')) := by
  intro fuel
  induction fuel with
  | zero => intro st; exact .inr ⟨"fuel exhausted", st, rfl⟩
  | succ n ih =>
    intro st
    cases hl : lexNext n st.lex with
    | mk r ls =>
      cases r with
      | error e =>
        refine .inr ⟨e.toMessage, ⟨ls, st.ignore⟩, ?_⟩
        rw [readUntilLineEnd, hl]
        cases e <;> rfl
      | ok t =>
        have hstep : ∀ o, t.ty = o →
            (o = Ty.ret ∨ o = Ty.eof →
              readUntilLineEnd (n + 1) st = (.ok (), ⟨ls, false⟩)) ∧
            ((o = Ty.ret → False) → (o = Ty.eof → False) →
              readUntilLineEnd (n + 1) st = readUntilLineEnd n ⟨ls, st.ignore⟩) := by
          intro o hty
          constructor
          · rintro (ho | ho) <;>
            · rw [readUntilLineEnd, hl]
              dsimp only
              rw [hty, ho]
          · intro h1 h2
            rw [readUntilLineEnd, hl]
            dsimp only
            rw [hty]
            cases o <;> first
              | rfl
              | exact absurd rfl h1
              | exact absurd rfl h2
        cases hty : t.ty with
        | ret => exact .inl ⟨⟨ls, false⟩, ((hstep _ hty).1 (.inl rfl))⟩
        | eof => exact .inl ⟨⟨ls, false⟩, ((hstep _ hty).1 (.inr rfl))⟩
        | space =>
          rw [(hstep _ hty).2 (by simp) (by simp)]
          exact ih ⟨ls, st.ignore⟩
        | dot =>
          rw [(hstep _ hty).2 (by simp) (by simp)]
          exact ih ⟨ls, st.ignore⟩
        | equal =>
          rw [(hstep _ hty).2 (by simp) (by simp)]
          exact ih ⟨ls, st.ignore⟩
        | ignoreTok =>
          rw [(hstep _ hty).2 (by simp) (by simp)]
          exact ih ⟨ls, st.ignore⟩
        | commentTok =>
          rw [(hstep _ hty).2 (by simp) (by simp)]
          exact ih ⟨ls, st.ignore⟩
        | ident v =>
          rw [(hstep _ hty).2 (by simp) (by simp)]
          exact ih ⟨ls, st.ignore⟩

/-- The recovery block yields no statement (or propagates a lexer-level
error); in particular it never re-raises the swallowed SyntaxError. -/
theorem recoverStatement_res {U : Type} (fuel : Nat) (ls : LexSt) (ig : Bool) :
    (recoverStatement (U := U) fuel ls ig).1 = .ok none ∨
    ∃ m, (recoverStatement (U := U) fuel ls ig).1 = .error (.lexerError m) := by
  unfold recoverStatement
  split
  · rename_i t ls₂ heq
    split
    · rcases readUntilLineEnd_res fuel ⟨ls₂, ig⟩ with ⟨st', hok⟩ | ⟨m, st', herr⟩
      · rw [hok]
        exact .inl rfl
      · rw [herr]
        exact .inr ⟨m, rfl⟩
    · exact .inl rfl
  · exact .inl rfl

/-- The error paths of `parse_value`'s loop do not touch the best-effort
flag (only the successful Return/EOF exit clears it). -/
theorem parseValueLoop_err_ignore {U : Type} (f : String → U) :
    ∀ (fuel : Nat) (st : PSt) (total : String) (e : PError) (st₂ : PSt),
      parseValueLoop f fuel st total = (.error e, st₂) → st₂.ignore = st.ignore := by
  intro fuel
  induction fuel with
  | zero =>
    intro st total e st₂ h
    injection h with h1 h2
    rw [← h2]
  | succ n ih =>
    intro st total e st₂ h
    rw [parseValueLoop] at h
    split at h
    · injection h with h1 h2
      rw [← h2]
    · rename_i t ls
      split at h
      · exact (ih _ _ _ _ h).trans rfl
      · exact (ih _ _ _ _ h).trans rfl
      · exact (ih _ _ _ _ h).trans rfl
      · injection h with h1 h2
        simp at h1
      · injection h with h1 h2
        simp at h1
      · injection h with h1 h2
        rw [← h2]

/-- Error paths of `parse_value` preserve the best-effort flag. -/
theorem parseValue_err_ignore {U : Type} (f : String → U) (fuel : Nat) (st : PSt)
    {e : PError} {st₂ : PSt} (h : parseValue f fuel st = (.error e, st₂)) :
    st₂.ignore = st.ignore := by
  unfold parseValue at h
  split at h
  · injection h with h1 h2
    rw [← h2]
  · rename_i t ls
    split at h
    · exact (parseValueLoop_err_ignore f _ _ _ _ _ h).trans rfl
    · exact (parseValueLoop_err_ignore f _ _ _ _ _ h).trans rfl
    · injection h with h1 h2
      rw [← h2]

/-- C3 (counterexample).  The grammar does not require an `=`/`->` token
between key and value: `parse_key` flips into value phase on a bare Space as
well, so `"a b"` parses successfully into one Statement instead of being
rejected with a SyntaxError. -/
theorem c3_space_only_counterexample :
    (parseConf "a b" 200).1 = .ok [⟨["a"], .string "b"⟩] := rfl

/-- C3 (amended).  A statement's key is terminated by whitespace or by an
`=`/`->` token: the explicit separator is optional, and `"a b"` parses to the
same single Statement (path `["a"]`, String value `"b"`) as `"a = b"` and
`"a -> b"`. -/
theorem c3_space_separator :
    (parseConf "a b" 200).1 = .ok [⟨["a"], .string "b"⟩] ∧
    (parseConf "a = b" 200).1 = .ok [⟨["a"], .string "b"⟩] ∧
    (parseConf "a -> b" 200).1 = .ok [⟨["a"], .string "b"⟩] :=
  ⟨rfl, rfl, rfl⟩

/-- C5.  Best-effort recovery: when the best-effort flag is set and the
statement fails to parse with a SyntaxError — in the key phase or in the
value phase — `parse_statement` swallows the error and yields no statement
(`Ok(None)`; the only other possibility is a propagated lexer-level error,
never a SyntaxError).  In particular parsing `"- debug =\n- debug2 = true"`
returns exactly one Statement, `debug2` with Boolean value `true`. -/
theorem c5_best_effort :
    (∀ (U : Type) (f : String → U) (fuel : Nat) (st : PSt) (s : String) (l : Loc)
       (ls₁ : LexSt),
      st.ignore = true →
      parseKey fuel st.lex = (.error (.syntaxError s l), ls₁) →
      (parseStatement f fuel st).1 = .ok none ∨
      ∃ m, (parseStatement f fuel st).1 = .error (.lexerError m)) ∧
    (∀ (U : Type) (f : String → U) (fuel : Nat) (st : PSt) (path : List String)
       (ls₁ : LexSt) (s : String) (l : Loc) (st₂ : PSt),
      st.ignore = true →
      parseKey fuel st.lex = (.ok path, ls₁) →
      parseValue f fuel ⟨ls₁, st.ignore⟩ = (.error (.syntaxError s l), st₂) →
      (parseStatement f fuel st).1 = .ok none ∨
      ∃ m, (parseStatement f fuel st).1 = .error (.lexerError m)) ∧
    (parseConf "- debug =\n- debug2 = true" 300).1 = .ok [⟨["debug2"], .boolean true⟩] := by
  refine ⟨?_, ?_, rfl⟩
  · intro U f fuel st s l ls₁ hig hkey
    have hps : parseStatement f fuel st = recoverStatement fuel ls₁ true := by
      unfold parseStatement
      rw [hkey]
      dsimp only
      rw [hig]
      simp
    rw [hps]
    exact recoverStatement_res fuel ls₁ true
  · intro U f fuel st path ls₁ s l st₂ hig hkey hval
    have hig₂ : st₂.ignore = true := by
      have hpre := parseValue_err_ignore f fuel ⟨ls₁, st.ignore⟩ hval
      rw [hpre, hig]
    have hps : parseStatement f fuel st = recoverStatement fuel st₂.lex true := by
      unfold parseStatement
      rw [hkey]
      dsimp only
      rw [hval]
      dsimp only
      rw [hig₂]
      simp
    rw [hps]
    exact recoverStatement_res fuel st₂.lex true

/-- Witness for C5: with the best-effort flag set, the key-phase SyntaxError
on the source `"a\n"` (a key followed by a bare Return) is swallowed. -/
theorem c5_best_effort_witness :
    (parseStatement valueFrom 100 ⟨(freshP "a\n").lex, true⟩).1 = .ok none ∨
    ∃ m, (parseStatement valueFrom 100 ⟨(freshP "a\n").lex, true⟩).1 =
      .error (.lexerError m) :=
  c5_best_effort.1 Value valueFrom 100 ⟨(freshP "a\n").lex, true⟩
    "キーの読み出しに失敗しました。" ⟨1, 2, 2⟩ (parseKey 100 (freshP "a\n").lex).2 rfl rfl

/-- C7.  Calling `parse()` again on an exhausted Parser — its lexer either
caches the EOF token from the previous run or sits on a fully consumed,
unbuffered byte stream — returns `Ok` with an empty statement sequence, for
any payload instantiation and any remaining fuel. -/
theorem c7_exhausted_parse {U : Type} (f : String → U) (fuel : Nat) (st : PSt)
    (h : (∃ t : Token, st.lex.peeking = some (.ok t) ∧ t.ty = .eof) ∨
         (st.lex.peeking = none ∧ st.lex.cr.input = [] ∧ st.lex.cr.peekBuffer = [])) :
    (parse f (fuel + 1) st).1 = .ok [] := by
  obtain ⟨⟨cr, pk⟩, ig⟩ := st
  rcases h with ⟨t, hp, hty⟩ | ⟨hp, hin, hbuf⟩
  · obtain ⟨loc, ty⟩ := t
    simp only at hp hty
    subst hp hty
    rfl
  · obtain ⟨inp, ln, ps, pb, po⟩ := cr
    simp only at hp hin hbuf
    subst hp hin hbuf
    rfl

/-- Witness for C7: a parser over the empty source parses to no statements. -/
theorem c7_exhausted_parse_witness :
    (parse valueFrom 1 (freshP "")).1 = .ok ([] : List (Statement Value)) :=
  c7_exhausted_parse valueFrom 0 (freshP "") (.inr ⟨rfl, rfl, rfl⟩)

/-- `parse_key`'s loop only appends fragments: a non-empty path in, a
non-empty path out. -/
theorem parseKeyLoop_nonempty :
    ∀ (fuel : Nat) (ls : LexSt) (path : List String) (vp : Bool)
      (p : List String) (ls' : LexSt),
      path ≠ [] → parseKeyLoop fuel ls path vp = (.ok p, ls') → p ≠ [] := by
  intro fuel
  induction fuel with
  | zero =>
    intro ls path vp p ls' hne h
    injection h with h1 h2
    simp at h1
  | succ n ih =>
    intro ls path vp p ls' hne h
    rw [parseKeyLoop] at h
    split at h
    · injection h with h1 h2
      simp at h1
    · split at h
      · -- dot
        split at h
        · injection h with h1 h2
          injection h1 with h1
          subst h1
          exact hne
        · split at h
          · injection h with h1 h2
            simp at h1
          · exact ih _ _ _ _ _ hne h
      · -- ident
        split at h
        · injection h with h1 h2
          injection h1 with h1
          subst h1
          exact hne
        · split at h
          · exact ih _ _ _ _ _ (by simp) h
          · injection h with h1 h2
            simp at h1
          · injection h with h1 h2
            simp at h1
      · -- space
        split at h
        · injection h with h1 h2
          simp at h1
        · exact ih _ _ _ _ _ hne h
      · -- equal
        split at h
        · injection h with h1 h2
          simp at h1
        · exact ih _ _ _ _ _ hne h
      · -- catch-all: consumed token reported as SyntaxError
        split at h
        · injection h with h1 h2
          simp at h1
        · injection h with h1 h2
          simp at h1

/-- A successful `parse_key` returns a non-empty path: the first Ident is
pushed before the loop runs. -/
theorem parseKey_nonempty {fuel : Nat} {ls : LexSt} {p : List String} {ls' : LexSt}
    (h : parseKey fuel ls = (.ok p, ls')) : p ≠ [] := by
  unfold parseKey at h
  split at h
  · injection h with h1 h2
    simp at h1
  · exact parseKeyLoop_nonempty _ _ _ _ _ _ (by simp) h
  · injection h with h1 h2
    simp at h1

/-- A statement produced by `parse_statement` carries a non-empty path. -/
theorem parseStatement_some_nonempty {U : Type} {f : String → U} {fuel : Nat}
    {st : PSt} {stmt : Statement U} {st' : PSt}
    (h : parseStatement f fuel st = (.ok (some stmt), st')) : stmt.path ≠ [] := by
  unfold parseStatement at h
  split at h
  · -- key-phase SyntaxError: either re-raised or recovered with Ok(None)
    split at h
    · rcases recoverStatement_res (U := U) fuel _ st.ignore with hok | ⟨m, herr⟩ <;>
      · rw [congrArg Prod.fst h] at *
        simp_all
    · injection h with h1 h2
      simp at h1
  · injection h with h1 h2
    simp at h1
  · rename_i path ls₁ hkey
    split at h
    · split at h
      · rcases recoverStatement_res (U := U) fuel _ _ with hok | ⟨m, herr⟩ <;>
        · rw [congrArg Prod.fst h] at *
          simp_all
      · injection h with h1 h2
        simp at h1
    · injection h with h1 h2
      simp at h1
    · injection h with h1 h2
      injection h1 with h1
      injection h1 with h1
      rw [← h1]
      exact parseKey_nonempty hkey

/-- The dispatch loop preserves the non-empty-path property of every
accumulated statement. -/
theorem parseLoop_nonempty {U : Type} (f : String → U) :
    ∀ (fuel : Nat) (st : PSt) (acc : List (Option (Statement U)))
      (r : List (Statement U)) (st' : PSt),
      (∀ s : Statement U, some s ∈ acc → s.path ≠ []) →
      parseLoop f fuel st acc = (.ok r, st') →
      ∀ s ∈ r, s.path ≠ [] := by
  intro fuel
  induction fuel with
  | zero =>
    intro st acc r st' hacc h
    injection h with h1 h2
    simp at h1
  | succ n ih =>
    intro st acc r st' hacc h
    rw [parseLoop] at h
    split at h
    · injection h with h1 h2
      simp at h1
    · split at h
      · -- eof: the accumulated options are flattened
        injection h with h1 h2
        injection h1 with h1
        subst h1
        intro s hs
        rw [List.mem_filterMap] at hs
        obtain ⟨a, ha, hid⟩ := hs
        replace hid : a = some s := hid
        exact hacc s (hid ▸ ha)
      · -- ident: one more (optional) statement
        split at h
        · rename_i o st₁ hstmt
          refine ih _ _ _ _ ?_ h
          intro s hs
          rcases List.mem_append.mp hs with hl | hr
          · exact hacc s hl
          · have ho : some s = o := by simpa using hr
            subst ho
            exact parseStatement_some_nonempty hstmt
        · injection h with h1 h2
          simp at h1
      · -- ignore marker
        split at h
        · injection h with h1 h2
          simp at h1
        · split at h
          · injection h with h1 h2
            simp at h1
          · exact ih _ _ _ _ hacc h
      · -- comment
        split at h
        · injection h with h1 h2
          simp at h1
        · exact ih _ _ _ _ hacc h
      · -- space
        split at h
        · injection h with h1 h2
          simp at h1
        · exact ih _ _ _ _ hacc h
      · -- return
        split at h
        · injection h with h1 h2
          simp at h1
        · exact ih _ _ _ _ hacc h
      · -- anything else at line head is a SyntaxError
        injection h with h1 h2
        simp at h1

/-- C9.  Every Statement in the sequence returned by a successful `parse()`
has a non-empty Path, for every input state and for every payload
instantiation (`Value` and `SchemaType` included). -/
theorem c9_nonempty_path (U : Type) (f : String → U) (fuel : Nat) (st : PSt)
    (r : List (Statement U)) (st' : PSt)
    (h : parse f fuel st = (.ok r, st')) :
    ∀ s ∈ r, s.path ≠ [] :=
  parseLoop_nonempty f fuel st [] r st' (by intro s hs; simp at hs) h

/-- Witness for C9 on the parse of `"a b"`: the one statement it returns has
a non-empty path. -/
theorem c9_nonempty_path_witness :
    (⟨["a"], Value.string "b"⟩ : Statement Value).path ≠ [] :=
  c9_nonempty_path Value valueFrom 200 (freshP "a b")
    [⟨["a"], Value.string "b"⟩] (parseConf "a b" 200).2 rfl
    ⟨["a"], Value.string "b"⟩ (List.Mem.head _)

end SC
